import Mathlib

/-!
Verification of the session-state reconciliation and filtering core of the
tpik tmux session picker (src/tpik/app.py).

The Python code is shallowly embedded: strings are Lean `String`s (lists of
characters), Python `set` becomes `Finset String`, subprocess behaviour is an
explicit outcome datatype, exceptions become `Except`.  All definitions are
executable so that concrete scenarios evaluate by `decide`.
-/

/-! ### Python string primitives -/

/-- The characters Python's `str.strip()` removes (Python's default
whitespace set). -/
def isPySpace (c : Char) : Bool :=
  c == ' ' || c == '\t' || c == '\n' || c == '\r' || c == '\x0b' || c == '\x0c'

/-- Python `str.strip()` on a character list: drop leading and trailing
whitespace. -/
def stripChars (l : List Char) : List Char :=
  ((l.dropWhile isPySpace).reverse.dropWhile isPySpace).reverse

/-- Python `str.strip()`. -/
def pyStrip (s : String) : String := ⟨stripChars s.data⟩

/-- Python `str.split(sep)` for a one-character separator. -/
def pySplit (sep : Char) (s : String) : List String :=
  (s.data.splitOn sep).map String.mk

/-- Python `sep.join(parts)`. -/
def pyJoin (sep : String) (l : List String) : String :=
  ⟨List.intercalate sep.data (l.map String.data)⟩

/-- Python `str.lower()` (ASCII case folding; the sessions in the claims are
ASCII). -/
def pyLower (s : String) : String := ⟨s.data.map Char.toLower⟩

/-- Substring search on character lists, the meaning of Python's
`needle in hay` for strings. -/
def containsSub (needle : List Char) : List Char → Bool
  | [] => needle.isEmpty
  | c :: rest => needle.isPrefixOf (c :: rest) || containsSub needle rest

/-- Python `needle in hay` for strings. -/
def pyContains (needle hay : String) : Bool := containsSub needle.data hay.data

/-- Value of an ASCII digit list read in base 10, Python `int` on a digit
string. -/
def digitsToNat (l : List Char) : Nat :=
  l.foldl (fun acc c => acc * 10 + (c.toNat - 48)) 0

/-- All characters are ASCII digits and there is at least one. -/
def isDigitChars (l : List Char) : Bool := !l.isEmpty && l.all Char.isDigit

/-- Python `str.isdigit()` restricted to ASCII, where the two agree exactly.
Real `isdigit` additionally accepts non-ASCII digit characters, for which
`int()` either returns their decimal value (Unicode decimal digits) or
raises an uncaught `ValueError` (digit characters that are not decimal,
such as superscripts); those characters are outside this model, and the
theorems that quantify over listing lines restrict the numeric fields to
ASCII. -/
def pyIsDigit (s : String) : Bool := isDigitChars s.data

/-- Tail of a Python `int` literal body: base-10 digits with single
underscores allowed between digits. -/
def pyIntBodyTail : List Char → Bool
  | [] => true
  | ['_'] => false
  | '_' :: d :: cs => d.isDigit && pyIntBodyTail cs
  | c :: cs => c.isDigit && pyIntBodyTail cs

/-- Whether a sign-free character list is a valid Python `int` literal
body: at least one digit, underscores only between digits. -/
def pyIntBody : List Char → Bool
  | [] => false
  | c :: cs => c.isDigit && pyIntBodyTail cs

/-- Value of a valid `int` literal body (underscores ignored). -/
def pyIntValue (l : List Char) : Int :=
  (digitsToNat (l.filter (fun c => c != '_')) : Int)

/-- Python `int(s)` for a string: optional surrounding whitespace, optional
sign, base-10 ASCII digits with underscore grouping; `none` models the
`ValueError` branch.  (Non-ASCII Unicode decimal digits, which `int()` also
accepts, are outside this model; see `pyIsDigit`.) -/
def pyToInt (s : String) : Option Int :=
  match stripChars s.data with
  | [] => none
  | c :: cs =>
    if c == '-' then
      if pyIntBody cs then some (-(pyIntValue cs)) else none
    else if c == '+' then
      if pyIntBody cs then some (pyIntValue cs) else none
    else if pyIntBody (c :: cs) then some (pyIntValue (c :: cs)) else none

/-! ### Python string comparison

Python compares strings lexicographically by code point; `sorted` uses this
order.  Mathlib's `String` order is not kernel-reducible (it recurses on
byte iterators), so the embedding carries its own executable order. -/

/-- Lexicographic comparison of character lists by code point. -/
def lexLE : List Char → List Char → Bool
  | [], _ => true
  | _ :: _, [] => false
  | a :: as, b :: bs =>
    if a.toNat < b.toNat then true
    else if b.toNat < a.toNat then false
    else lexLE as bs

/-- Python's `s <= t` on strings, as a proposition. -/
def pyLe (s t : String) : Prop := lexLE s.data t.data = true

instance : DecidableRel pyLe := fun s t =>
  inferInstanceAs (Decidable (lexLE s.data t.data = true))

theorem lexLE_refl (l : List Char) : lexLE l l = true := by
  induction l with
  | nil => rfl
  | cons a as ih => simp [lexLE, ih]

theorem lexLE_total (a b : List Char) : lexLE a b = true ∨ lexLE b a = true := by
  induction a generalizing b with
  | nil => left; rfl
  | cons x xs ih =>
    cases b with
    | nil => right; rfl
    | cons y ys =>
      rcases Nat.lt_trichotomy x.toNat y.toNat with h | h | h
      · left; simp [lexLE, h]
      · rcases ih ys with h2 | h2
        · left; simp [lexLE, h, h2]
        · right; simp [lexLE, h.symm, h2]
      · right; simp [lexLE, h]

theorem Char.toNat_injective {a b : Char} (h : a.toNat = b.toNat) : a = b := by
  have := congrArg Char.ofNat h
  simpa using this

theorem lexLE_antisymm {a b : List Char} (h1 : lexLE a b = true)
    (h2 : lexLE b a = true) : a = b := by
  induction a generalizing b with
  | nil => cases b with
    | nil => rfl
    | cons y ys => simp [lexLE] at h2
  | cons x xs ih =>
    cases b with
    | nil => simp [lexLE] at h1
    | cons y ys =>
      rcases Nat.lt_trichotomy x.toNat y.toNat with h | h | h
      · simp [lexLE, h, Nat.lt_asymm h, Nat.ne_of_lt h] at h2
      · have hxy : x = y := Char.toNat_injective h
        subst hxy
        simp only [lexLE, Nat.lt_irrefl, if_false] at h1 h2
        exact congrArg (x :: ·) (ih h1 h2)
      · simp [lexLE, h, Nat.lt_asymm h, Nat.ne_of_lt h] at h1

theorem lexLE_trans {a b c : List Char} (h1 : lexLE a b = true)
    (h2 : lexLE b c = true) : lexLE a c = true := by
  induction a generalizing b c with
  | nil => rfl
  | cons x xs ih =>
    cases b with
    | nil => simp [lexLE] at h1
    | cons y ys =>
      cases c with
      | nil => simp [lexLE] at h2
      | cons z zs =>
        rcases Nat.lt_trichotomy x.toNat y.toNat with hxy | hxy | hxy
        · rcases Nat.lt_trichotomy y.toNat z.toNat with hyz | hyz | hyz
          · simp [lexLE, Nat.lt_trans hxy hyz]
          · simp [lexLE, hyz ▸ hxy]
          · simp [lexLE, hyz, Nat.lt_asymm hyz, Nat.ne_of_lt hyz] at h2
        · rcases Nat.lt_trichotomy y.toNat z.toNat with hyz | hyz | hyz
          · simp [lexLE, hxy ▸ hyz]
          · simp only [lexLE, hxy, hyz, Nat.lt_irrefl, if_false] at h1 h2 ⊢
            exact ih h1 h2
          · simp [lexLE, hyz, Nat.lt_asymm hyz, Nat.ne_of_lt hyz] at h2
        · simp [lexLE, hxy, Nat.lt_asymm hxy, Nat.ne_of_lt hxy] at h1

instance : IsTrans String pyLe :=
  ⟨fun _ _ _ h1 h2 => lexLE_trans h1 h2⟩

instance : IsAntisymm String pyLe :=
  ⟨fun s t h1 h2 => by
    cases s; cases t
    exact congrArg String.mk (lexLE_antisymm h1 h2)⟩

instance : IsTotal String pyLe :=
  ⟨fun s t => lexLE_total s.data t.data⟩

/-- Python `sorted` applied to a set of strings: the unique sorted listing of
a `Finset String`.  Implemented with insertion sort so that the kernel can
evaluate it. -/
def pySorted (s : Finset String) : List String :=
  Quot.liftOn s.val (fun l => List.insertionSort pyLe l) (fun l₁ l₂ h =>
    List.eq_of_perm_of_sorted
      ((List.perm_insertionSort pyLe l₁).trans
        ((h : l₁.Perm l₂).trans (List.perm_insertionSort pyLe l₂).symm))
      (List.sorted_insertionSort pyLe l₁) (List.sorted_insertionSort pyLe l₂))

/-! ### Favorites store (TmuxManager.load_favorites / save_favorites /
toggle_favorite)

The favorites file's content is a `String`; reads and writes are assumed to
succeed (the claims under verification assume this), so the `try/except`
around them has no failing branch to model. -/

/-- TmuxManager.load_favorites, applied to the file's content. -/
def load_favorites (content : String) : Finset String :=
  let c := pyStrip content
  if c = "" then ∅
  else (((pySplit '\n' c).map pyStrip).filter (fun line => line ≠ "")).toFinset

/-- TmuxManager.save_favorites: the content written to the favorites file. -/
def save_favorites (favorites : Finset String) : String :=
  let content := pyJoin "\n" (pySorted favorites)
  if content ≠ "" then content ++ "\n" else ""

/-- TmuxManager.toggle_favorite, acting on the favorites file content.
Returns the new membership state (the Python return value) and the new file
content. -/
def toggle_favorite (session_name : String) (content : String) : Bool × String :=
  let favorites := load_favorites content
  if session_name ∈ favorites then
    (false, save_favorites (favorites.erase session_name))
  else
    (true, save_favorites (insert session_name favorites))

/-! ### Session records and listing (TmuxSession, TmuxManager.get_sessions) -/

/-- One parsed tmux session (class TmuxSession in app.py).  `created` keeps
the successfully converted epoch value; `none` is the "Unknown" sentinel of
the `except (ValueError, TypeError)` branch.  The `strftime` display
formatting of the epoch is not modelled: no claim mentions the rendered
text. -/
structure TmuxSession where
  name : String
  created : Option Int
  windows : Nat
  attached : Bool
  window_preview : String
  is_favorite : Bool
deriving DecidableEq

/-- Outcome of `datetime.fromtimestamp(e)` in CPython on a platform with a
signed 64-bit `time_t`.
  - `ok`: `e` is within datetime's representable range (about years 1 to
    9999); the conversion and `strftime` succeed.
  - `caughtValueError`: the C `localtime` call succeeds but the year falls
    outside 1..9999, raising `ValueError` — caught by the
    `except (ValueError, TypeError)` clause in get_sessions, which turns it
    into the "Unknown" sentinel.
  - `osError`: `e` fits `time_t` but `localtime` itself fails, raising
    `OSError` — not caught by any except clause in get_sessions.
  - `overflowError`: `e` does not fit `time_t` (magnitude at least `2 ^ 63`),
    raising `OverflowError` — not caught either.
The two middle boundaries depend on the platform's timezone offset and
`localtime` range and are approximated by round constants; every concrete
epoch in this development is far from all boundaries. -/
inductive TsClass where
  | ok
  | caughtValueError
  | osError
  | overflowError
deriving DecidableEq

/-- Smallest epoch `datetime.fromtimestamp` converts (about year 1). -/
def DATETIME_MIN : Int := -62135596800

/-- Largest epoch `datetime.fromtimestamp` converts (about year 9999). -/
def DATETIME_MAX : Int := 253402300799

/-- Approximate smallest epoch the C `localtime` handles. -/
def LOCALTIME_MIN : Int := -67768040609740800

/-- Approximate largest epoch the C `localtime` handles (`tm_year` is a C
int). -/
def LOCALTIME_MAX : Int := 67768036191676799

/-- Classification of `datetime.fromtimestamp(e)`; see `TsClass`. -/
def tsClass (e : Int) : TsClass :=
  if e < -(2 ^ 63) ∨ 2 ^ 63 ≤ e then .overflowError
  else if e < LOCALTIME_MIN ∨ LOCALTIME_MAX < e then .osError
  else if e < DATETIME_MIN ∨ DATETIME_MAX < e then .caughtValueError
  else .ok

/-- A Python exception escaping a boundary of the embedded code. -/
inductive PyExn where
  /-- `subprocess.run` could not start the external command. -/
  | fileNotFoundError
  /-- `datetime.fromtimestamp`: the epoch does not fit `time_t`. -/
  | overflowError
  /-- `datetime.fromtimestamp`: the C `localtime` call failed. -/
  | osError
deriving DecidableEq

instance {ε α : Type} [DecidableEq ε] [DecidableEq α] :
    DecidableEq (Except ε α) := fun x y =>
  match x, y with
  | .error a, .error b => decidable_of_iff (a = b) (by simp)
  | .ok a, .ok b => decidable_of_iff (a = b) (by simp)
  | .error _, .ok _ => isFalse (by simp)
  | .ok _, .error _ => isFalse (by simp)

/-- Lines 126-130 of app.py:
`created_dt = datetime.fromtimestamp(int(created_timestamp))` guarded by
`except (ValueError, TypeError)`.  A failing `int()` and an out-of-range
year are caught (the "Unknown" sentinel, `none`); `OverflowError` and
`OSError` from `fromtimestamp` match no except clause and escape. -/
def createdField (ts : String) : Except PyExn (Option Int) :=
  match pyToInt ts with
  | none => .ok none
  | some e =>
    match tsClass e with
    | .ok => .ok (some e)
    | .caughtValueError => .ok none
    | .osError => .error .osError
    | .overflowError => .error .overflowError

/-- One iteration of the parsing loop in TmuxManager.get_sessions: a line of
the listing output becomes a session record, is skipped (`.ok none`) when it
is blank or has fewer than 4 pipe-separated fields, or raises
(`OverflowError`/`OSError`) when its epoch field is an integer outside the
timestamp-conversion range.  The windows field is modelled for ASCII; see
`pyIsDigit` for the non-ASCII divergence. -/
def parseLine (favorites : Finset String) (line : String) :
    Except PyExn (Option TmuxSession) :=
  if pyStrip line = "" then .ok none
  else
    let parts := pySplit '|' line
    if parts.length ≥ 4 then
      match createdField (parts.getD 1 "") with
      | .error e => .error e
      | .ok created =>
        let name := parts.getD 0 ""
        let windows := parts.getD 2 ""
        .ok (some { name := name
                    created := created
                    windows := if pyIsDigit windows then digitsToNat windows.data else 0
                    attached := parts.getD 3 "" == "1"
                    window_preview := parts.getD 4 ""
                    is_favorite := decide (name ∈ favorites) })
    else .ok none

/-- The per-line loop of TmuxManager.get_sessions: records accumulate in
source order, and the first uncaught exception aborts the whole batch (the
partial list is discarded, the exception propagates). -/
def parseLines (favorites : Finset String) :
    List String → Except PyExn (List TmuxSession)
  | [] => .ok []
  | line :: rest =>
    match parseLine favorites line with
    | .error e => .error e
    | .ok none => parseLines favorites rest
    | .ok (some s) =>
      match parseLines favorites rest with
      | .error e => .error e
      | .ok l => .ok (s :: l)

/-- The parsing phase of TmuxManager.get_sessions on the raw stdout of the
listing command: `result.stdout.strip().split("\n")`, then the per-line
loop. -/
def parse_sessions (favorites : Finset String) (stdout : String) :
    Except PyExn (List TmuxSession) :=
  parseLines favorites (pySplit '\n' (pyStrip stdout))

/-- Behaviour of the external listing command
(`subprocess.run(["tmux", "list-sessions", ...], check=True)`). -/
inductive CmdOutcome where
  /-- The command ran and exited 0 with this stdout. -/
  | success (stdout : String)
  /-- The command ran and exited non-zero: `check=True` raises
  `subprocess.CalledProcessError`. -/
  | nonZeroExit
  /-- The command could not be started (tmux unavailable):
  `subprocess.run` raises `FileNotFoundError`. -/
  | startFailure
deriving DecidableEq

/-- TmuxManager.get_sessions.  The `try` block catches only
`subprocess.CalledProcessError`: a `FileNotFoundError` from `subprocess.run`
escapes, and so do the parse-time `OverflowError`/`OSError` raised by an
out-of-range epoch field on a successful run. -/
def get_sessions (favorites : Finset String) :
    CmdOutcome → Except PyExn (List TmuxSession)
  | .success stdout => parse_sessions favorites stdout
  | .nonZeroExit => .ok []
  | .startFailure => .error .fileNotFoundError

/-! ### View model (TpikApp reactive state and transitions) -/

/-- The reactive view state of TpikApp: `sessions`, `search_query`,
`show_favorites_only` and the derived `filtered_sessions`. -/
structure ViewState where
  sessions : List TmuxSession
  search_query : String
  show_favorites_only : Bool
  filtered_sessions : List TmuxSession
deriving DecidableEq

/-- TpikApp.update_filtered_sessions: favorites filter, then search filter,
in the code's order. -/
def update_filtered_sessions (st : ViewState) : ViewState :=
  let filtered := st.sessions
  let filtered :=
    if st.show_favorites_only then filtered.filter (fun s => s.is_favorite)
    else filtered
  let filtered :=
    if st.search_query ≠ "" then
      filtered.filter (fun s => pyContains (pyLower st.search_query) (pyLower s.name))
    else filtered
  { st with filtered_sessions := filtered }

/-- Replacing `sessions` (as refresh_sessions does) re-derives the view. -/
def setSessions (l : List TmuxSession) (st : ViewState) : ViewState :=
  update_filtered_sessions { st with sessions := l }

/-- Replacing `search_query` (on_input_changed) re-derives the view. -/
def setQuery (q : String) (st : ViewState) : ViewState :=
  update_filtered_sessions { st with search_query := q }

/-- Flipping `show_favorites_only` (action_toggle_favorites_filter)
re-derives the view. -/
def toggleFavoritesOnly (st : ViewState) : ViewState :=
  update_filtered_sessions { st with show_favorites_only := !st.show_favorites_only }

/-- The in-place mutation `session.is_favorite = is_fav` seen through a
record with this name (the record object is shared between `sessions` and
`filtered_sessions`; tmux session names are unique). -/
def set_session_favorite (name : String) (fav : Bool) (s : TmuxSession) : TmuxSession :=
  if s.name = name then { s with is_favorite := fav } else s

/-- TpikApp.action_toggle_favorite on the view state: flips the selected
record's flag in place and re-renders the list, but does not call
update_filtered_sessions, so `filtered_sessions` keeps its membership. -/
def action_toggle_favorite (name : String) (fav : Bool) (st : ViewState) : ViewState :=
  { st with
    sessions := st.sessions.map (set_session_favorite name fav)
    filtered_sessions := st.filtered_sessions.map (set_session_favorite name fav) }

/-- The filter predicate of the spec's re-derivation algorithm: the
favorites condition and the case-insensitive substring condition. -/
def sessionPasses (q : String) (fav_only : Bool) (s : TmuxSession) : Bool :=
  (!fav_only || s.is_favorite) && (q == "" || pyContains (pyLower q) (pyLower s.name))

/-- The spec's view-state invariant: `filtered_sessions` is exactly the
filter of `sessions` under the current predicate. -/
def viewInvariant (st : ViewState) : Prop :=
  st.filtered_sessions =
    st.sessions.filter (sessionPasses st.search_query st.show_favorites_only)

instance (st : ViewState) : Decidable (viewInvariant st) :=
  inferInstanceAs (Decidable (_ = _))

/-! ### Action orchestration (create and kill) -/

/-- Outcome of an external tmux subcommand run with `check=False`: exit code
zero, or non-zero with this stderr text. -/
inductive RunResult where
  | ok
  | failed (stderr : String)
deriving DecidableEq

/-- TmuxManager.create_session.  `session_exists` is the result of the
`has-session` existence check, `run` the outcome of the `new-session`
command when it is issued.  Returns (success, message, whether the external
create command was issued). -/
def create_session (session_name : String) (session_exists : Bool)
    (run : RunResult) : Bool × String × Bool :=
  if session_exists then
    (false, "Session " ++ "'" ++ session_name ++ "'" ++ " already exists", false)
  else
    match run with
    | .ok => (true, "Created session " ++ "'" ++ session_name ++ "'", true)
    | .failed stderr =>
      (false, "Failed to create session: " ++ pyStrip stderr, true)

/-- TmuxManager.kill_session: issues the kill command and reports its
outcome.  (No guard lives here; the guard is in the action layer.) -/
def kill_session (session_name : String) (run : RunResult) : Bool × String :=
  match run with
  | .ok => (true, "Killed session " ++ "'" ++ session_name ++ "'")
  | .failed stderr => (false, "Failed to kill session: " ++ pyStrip stderr)

/-- What TpikApp.action_kill_session does before (or instead of) calling the
external kill command. -/
inductive KillAction where
  /-- No session selected: warn and stop. -/
  | warnNoSelection
  /-- The selected session is the current one: refuse, the external kill
  command is never invoked. -/
  | refuseCurrent
  /-- Invoke TmuxManager.kill_session on this name. -/
  | kill (name : String)
deriving DecidableEq

/-- TpikApp.action_kill_session: the guard `session.name ==
self.current_session` precedes any external call. -/
def action_kill_session (selected : Option TmuxSession)
    (current_session : Option String) : KillAction :=
  match selected with
  | none => .warnNoSelection
  | some s => if some s.name = current_session then .refuseCurrent else .kill s.name

/-! ### Substring bridge and filter-engine lemmas -/

theorem containsSub_iff_infix {needle hay : List Char} :
    containsSub needle hay = true ↔ needle <:+: hay := by
  induction hay with
  | nil => simp [containsSub, List.isEmpty_iff]
  | cons c rest ih =>
    simp [containsSub, Bool.or_eq_true, ih, List.isPrefixOf_iff_prefix,
      List.infix_cons_iff]

theorem pyContains_iff {needle hay : String} :
    pyContains needle hay = true ↔ needle.data <:+: hay.data :=
  containsSub_iff_infix

/-- What update_filtered_sessions computes: the filter of `sessions` under
the conjunction of the favorites predicate and the substring predicate. -/
theorem update_filtered_eq (st : ViewState) :
    (update_filtered_sessions st).filtered_sessions =
      st.sessions.filter (sessionPasses st.search_query st.show_favorites_only) := by
  by_cases hf : st.show_favorites_only = true <;>
    by_cases hq : st.search_query = ""
  · simp only [update_filtered_sessions, hf, hq]
    simp only [ne_eq, not_true_eq_false, if_false, if_true]
    exact List.filter_congr fun s _ => by simp [sessionPasses]
  · have hqb : (st.search_query == "") = false := by simpa using hq
    simp only [update_filtered_sessions, hf, if_true, ne_eq, hq,
      not_false_eq_true, if_true, List.filter_filter]
    exact List.filter_congr fun s _ => by
      simp [sessionPasses, hqb, Bool.and_comm]
  · have hf' : st.show_favorites_only = false := by simpa using hf
    simp only [update_filtered_sessions, hf', hq]
    simp only [ne_eq, not_true_eq_false, if_false, Bool.false_eq_true]
    exact (List.filter_eq_self.mpr fun s _ => by simp [sessionPasses]).symm
  · have hf' : st.show_favorites_only = false := by simpa using hf
    have hqb : (st.search_query == "") = false := by simpa using hq
    simp only [update_filtered_sessions, hf', ne_eq, hq, not_false_eq_true,
      if_true, Bool.false_eq_true, if_false]
    exact List.filter_congr fun s _ => by simp [sessionPasses, hqb]

/-- update_filtered_sessions changes only the derived field, so the
invariant holds of its result. -/
theorem viewInvariant_update (st : ViewState) :
    viewInvariant (update_filtered_sessions st) := by
  show (update_filtered_sessions st).filtered_sessions = _
  rw [update_filtered_eq]
  rfl

theorem sessionPasses_iff {q : String} {fav_only : Bool} {s : TmuxSession} :
    sessionPasses q fav_only s = true ↔
      (fav_only = true → s.is_favorite = true) ∧
      (q ≠ "" → (pyLower q).data <:+: (pyLower s.name).data) := by
  cases fav_only <;> by_cases hq : q = "" <;>
    simp [sessionPasses, hq, pyContains_iff]

/-! ### Claims about the filter engine (C1, C2) -/

/-- Claim C2: for every view state, the derived `filtered_sessions` is a
subsequence of `sessions` (subset preserving relative order), and a record
is a member of it iff it is a member of `sessions`, is a favorite whenever
the favorites filter is on, and, whenever the query is non-empty, its
case-folded name contains the case-folded query as a substring. -/
theorem c2_filtered_membership : ∀ st : ViewState,
    (update_filtered_sessions st).filtered_sessions.Sublist st.sessions ∧
    ∀ r : TmuxSession,
      r ∈ (update_filtered_sessions st).filtered_sessions ↔
        r ∈ st.sessions ∧
        (st.show_favorites_only = true → r.is_favorite = true) ∧
        (st.search_query ≠ "" →
          (pyLower st.search_query).data <:+: (pyLower r.name).data) := by
  intro st
  rw [update_filtered_eq]
  refine ⟨List.filter_sublist _, fun r => ?_⟩
  rw [List.mem_filter, sessionPasses_iff]

/-- Claim C1 (counterexample): toggling a record's favorite flag while the
favorites filter is active leaves `filtered_sessions` stale — the
just-unfavorited record is still listed, so the state violates the
invariant.  action_toggle_favorite only re-renders; it does not call
update_filtered_sessions. -/
theorem c1_counterexample :
    ¬ viewInvariant (action_toggle_favorite "alpha" false
      (toggleFavoritesOnly (setSessions [⟨"alpha", none, 1, false, "", true⟩]
        ⟨[], "", false, []⟩))) := by decide

/-- Claim C1 (amended): after each transition that changes `sessions`,
`search_query` or `show_favorites_only`, the view is re-derived
synchronously and the invariant holds (toggling a record's favorite flag is
not such a transition: it skips the re-derivation). -/
theorem c1_invariant_after_rederiving_transitions :
    ∀ (st : ViewState) (l : List TmuxSession) (q : String),
      viewInvariant (setSessions l st) ∧
      viewInvariant (setQuery q st) ∧
      viewInvariant (toggleFavoritesOnly st) :=
  fun st l q =>
    ⟨viewInvariant_update { st with sessions := l },
     viewInvariant_update { st with search_query := q },
     viewInvariant_update { st with show_favorites_only := !st.show_favorites_only }⟩

/-! ### Claims about the listing boundary (C3, C4) -/

/-- Claim C3 (counterexample): when the listing command cannot be started
(tmux unavailable), get_sessions does not return an empty sequence — the
`except subprocess.CalledProcessError` clause does not cover
`FileNotFoundError`, which escapes to the caller. -/
theorem c3_counterexample :
    get_sessions ∅ CmdOutcome.startFailure = .error .fileNotFoundError := rfl

/-- Claim C3 (amended): on a non-zero exit of the listing command,
get_sessions returns the empty sequence with no partial results and no
error propagated.  Other failures are not silenced: a start failure
propagates FileNotFoundError (the counterexample), and even a successful
run propagates an uncaught OverflowError when a listed epoch field exceeds
the timestamp-conversion range. -/
theorem c3_nonzero_exit_yields_empty :
    ∀ favorites : Finset String,
      get_sessions favorites CmdOutcome.nonZeroExit = .ok [] ∧
      get_sessions favorites
          (CmdOutcome.success "a|100000000000000000000|1|1|x") =
        .error .overflowError :=
  fun _ => ⟨rfl, rfl⟩

/-- Claim C4: the two-line listing scenario.  With favorites {"scratch"},
the raw output yields exactly the record for "work" (attached, 3 windows,
preview "vim", not favorite) then the record for "scratch" (detached, 1
window, empty preview, favorite). -/
theorem c4_listing_scenario :
    get_sessions {"scratch"}
        (CmdOutcome.success "work|1700000000|3|1|vim\nscratch|1700000100|1|0|\n") =
      .ok [⟨"work", some 1700000000, 3, true, "vim", false⟩,
           ⟨"scratch", some 1700000100, 1, false, "", true⟩] := by decide

/-! ### Claims about create and kill (C6, C7) -/

/-- Claim C6: whenever the selected session's name equals the current
session name, action_kill_session refuses: it reports failure and never
reaches the external kill command. -/
theorem c6_self_kill_guard :
    ∀ s : TmuxSession,
      action_kill_session (some s) (some s.name) = KillAction.refuseCurrent := by
  intro s
  simp [action_kill_session]

/-- Claim C7: when the existence check reports the name as taken,
create_session returns failure with the "already exists" message and never
issues the external create command (no alternative name is generated). -/
theorem c7_create_existing_refused :
    ∀ (session_name : String) (run : RunResult),
      create_session session_name true run =
        (false, "Session " ++ "'" ++ session_name ++ "'" ++ " already exists",
          false) :=
  fun _ _ => rfl

/-! ### Line-level characterization of the parser (C8, C10) -/

/-- The value the caught paths give the created field: the epoch when the
conversion succeeds, the "Unknown" sentinel otherwise. -/
def createdOk (ts : String) : Option Int :=
  match pyToInt ts with
  | none => none
  | some e => if tsClass e = .ok then some e else none

/-- The record built from a kept listing line (one with at least 4
pipe-separated fields) whose epoch field does not abort the batch. -/
def lineRecord (favorites : Finset String) (line : String) : TmuxSession :=
  let parts := pySplit '|' line
  { name := parts.getD 0 ""
    created := createdOk (parts.getD 1 "")
    windows :=
      if pyIsDigit (parts.getD 2 "") then digitsToNat (parts.getD 2 "").data else 0
    attached := parts.getD 3 "" == "1"
    window_preview := parts.getD 4 ""
    is_favorite := decide (parts.getD 0 "" ∈ favorites) }

/-- A listing line on which the model is exact and the parse cannot raise:
its epoch and window-count fields are ASCII (so Python's `int` and
`isdigit` coincide with the model), and its epoch, when `int()` accepts it,
stays in the range where `fromtimestamp` either succeeds or raises the
caught `ValueError`. -/
def lineBenign (line : String) : Bool :=
  let parts := pySplit '|' line
  ((parts.getD 1 "").data.all (fun c => decide (c.toNat < 128))) &&
  ((parts.getD 2 "").data.all (fun c => decide (c.toNat < 128))) &&
  (match pyToInt (parts.getD 1 "") with
   | none => true
   | some e => decide (tsClass e = .ok ∨ tsClass e = .caughtValueError))

theorem createdField_benign {ts : String}
    (h : (match pyToInt ts with
          | none => true
          | some e => decide (tsClass e = .ok ∨ tsClass e = .caughtValueError)) =
        true) :
    createdField ts = .ok (createdOk ts) := by
  cases hp : pyToInt ts with
  | none => simp [createdField, createdOk, hp]
  | some e =>
    rw [hp] at h
    rcases of_decide_eq_true h with h2 | h2 <;>
      simp [createdField, createdOk, hp, h2]

theorem lineBenign_epoch {line : String} (h : lineBenign line = true) :
    (match pyToInt ((pySplit '|' line).getD 1 "") with
     | none => true
     | some e => decide (tsClass e = .ok ∨ tsClass e = .caughtValueError)) =
      true := by
  simp only [lineBenign, Bool.and_eq_true] at h
  exact h.2

theorem parseLine_benign (favorites : Finset String) (line : String)
    (hb : lineBenign line = true) :
    parseLine favorites line =
      if pyStrip line ≠ "" ∧ 4 ≤ (pySplit '|' line).length
      then .ok (some (lineRecord favorites line)) else .ok none := by
  have hcf := createdField_benign (lineBenign_epoch hb)
  simp only [List.getD_eq_getElem?_getD] at hcf
  by_cases h1 : pyStrip line = "" <;>
    by_cases h2 : 4 ≤ (pySplit '|' line).length <;>
      simp [parseLine, lineRecord, h1, h2, ge_iff_le, hcf]

theorem parseLines_benign (favorites : Finset String) (lines : List String)
    (hb : ∀ line ∈ lines, lineBenign line = true) :
    parseLines favorites lines =
      .ok ((lines.filter
          (fun line => decide (pyStrip line ≠ "" ∧ 4 ≤ (pySplit '|' line).length))).map
        (lineRecord favorites)) := by
  induction lines with
  | nil => rfl
  | cons line rest ih =>
    have hbl := hb line (List.mem_cons_self line rest)
    have hbr : ∀ l ∈ rest, lineBenign l = true :=
      fun l hl => hb l (List.mem_cons_of_mem line hl)
    by_cases hk : pyStrip line ≠ "" ∧ 4 ≤ (pySplit '|' line).length <;>
      simp [parseLines, parseLine_benign favorites line hbl, hk, ih hbr,
        List.filter_cons]

/-- Claim C8 (counterexample): dropping is not the only way a line can fail
to yield a record.  Both lines here have at least 4 fields, yet the second
line's epoch field aborts the whole listing with an uncaught OverflowError:
no record survives, not even the first line's. -/
theorem c8_counterexample :
    get_sessions ∅ (CmdOutcome.success
        "good|1700000000|1|1|x\nbad|100000000000000000000|1|1|y") =
      .error .overflowError := by decide

/-- Claim C8 (amended): on listing output whose lines are benign (epoch and
window-count fields ASCII, integer epochs inside the timestamp-convertible
or caught range), the parse is order-preserving: the result is exactly the
map of the record constructor over the kept lines in source order, and a
line yields no record exactly when it is blank or has fewer than 4
pipe-separated fields.  Outside that domain an out-of-range epoch aborts
the whole batch (see the counterexample). -/
theorem c8_order_preserving_parse :
    ∀ (favorites : Finset String) (stdout : String),
      (∀ line ∈ pySplit '\n' (pyStrip stdout), lineBenign line = true) →
      parse_sessions favorites stdout =
        .ok (((pySplit '\n' (pyStrip stdout)).filter
            (fun line => decide (pyStrip line ≠ "" ∧ 4 ≤ (pySplit '|' line).length))).map
          (lineRecord favorites)) ∧
      ∀ line : String, lineBenign line = true →
        (parseLine favorites line = .ok none ↔
          pyStrip line = "" ∨ (pySplit '|' line).length < 4) := by
  intro favorites stdout hb
  constructor
  · exact parseLines_benign favorites _ hb
  · intro line hbl
    rw [parseLine_benign favorites line hbl]
    by_cases h1 : pyStrip line = "" <;>
      by_cases h2 : 4 ≤ (pySplit '|' line).length <;>
        (simp [h1, h2]; try omega)

theorem c8_order_preserving_parse_witness :
    (∀ line ∈ pySplit '\n' (pyStrip
        "work|1700000000|3|1|vim\nbad-line-no-pipes\nx|1700000000\nscratch|1700000100|1|0|"),
      lineBenign line = true) ∧
    (parse_sessions {"scratch"}
        "work|1700000000|3|1|vim\nbad-line-no-pipes\nx|1700000000\nscratch|1700000100|1|0|" =
        .ok (((pySplit '\n' (pyStrip
            "work|1700000000|3|1|vim\nbad-line-no-pipes\nx|1700000000\nscratch|1700000100|1|0|")).filter
            (fun line => decide (pyStrip line ≠ "" ∧ 4 ≤ (pySplit '|' line).length))).map
          (lineRecord {"scratch"})) ∧
      ∀ line : String, lineBenign line = true →
        (parseLine {"scratch"} line = .ok none ↔
          pyStrip line = "" ∨ (pySplit '|' line).length < 4)) :=
  ⟨by decide,
    c8_order_preserving_parse {"scratch"}
      "work|1700000000|3|1|vim\nbad-line-no-pipes\nx|1700000000\nscratch|1700000100|1|0|"
      (by decide)⟩

theorem intercalate_cons_cons {α : Type} (sep a b : List α) (t : List (List α)) :
    List.intercalate sep (a :: b :: t) = a ++ sep ++ List.intercalate sep (b :: t) := by
  simp [List.intercalate, List.intersperse_cons_cons, List.append_assoc]

theorem map_data_map_mk (ll : List (List Char)) :
    (ll.map String.mk).map String.data = ll := by
  rw [List.map_map]
  exact (List.map_congr_left fun a _ => rfl).trans (List.map_id ll)

theorem strip_ne_nil_of_mem {l : List Char} {c : Char} (hc : c ∈ l)
    (hs : isPySpace c = false) : stripChars l ≠ [] := by
  intro h
  unfold stripChars at h
  rw [List.reverse_eq_nil_iff, List.dropWhile_eq_nil_iff] at h
  have hcd : c ∈ l.dropWhile isPySpace := by
    have hsplit : l.takeWhile isPySpace ++ l.dropWhile isPySpace = l :=
      List.takeWhile_append_dropWhile isPySpace l
    rcases List.mem_append.mp (hsplit ▸ hc) with hmem | hmem
    · exact absurd (List.mem_takeWhile_imp hmem) (by simp [hs])
    · exact hmem
  have := h c (List.mem_reverse.mpr hcd)
  simp [hs] at this

/-- Claim C10 (counterexample): a line with more than 5 pipe-separated
parts does not always yield a record — here the epoch field raises an
uncaught OverflowError, so the listing produces no record at all for the
line (or for the batch). -/
theorem c10_counterexample :
    get_sessions ∅ (CmdOutcome.success "a|100000000000000000000|1|1|p|q") =
      .error .overflowError := by decide

/-- Claim C10 (amended): a benign line (epoch and window-count fields
ASCII, epoch inside the convertible or caught range) that splits into more
than 5 parts still yields a record; its preview is only the 5th part and
every later part is discarded — the record is a function of the first five
parts alone. -/
theorem c10_extra_fields_discarded :
    ∀ (favorites : Finset String) (line p0 p1 p2 p3 p4 : String)
      (rest : List String),
      pySplit '|' line = p0 :: p1 :: p2 :: p3 :: p4 :: rest →
      rest ≠ [] →
      lineBenign line = true →
      parseLine favorites line =
        .ok (some { name := p0, created := createdOk p1,
                    windows := if pyIsDigit p2 then digitsToNat p2.data else 0,
                    attached := p3 == "1", window_preview := p4,
                    is_favorite := decide (p0 ∈ favorites) }) := by
  intro favorites line p0 p1 p2 p3 p4 rest hsplit _hrest hb
  have hdata : line.data.splitOn '|' =
      p0.data :: p1.data :: p2.data :: p3.data :: p4.data :: rest.map String.data := by
    have h := congrArg (List.map String.data) hsplit
    rw [pySplit] at h
    rw [map_data_map_mk] at h
    simpa using h
  have hline : line.data = List.intercalate ['|']
      (p0.data :: p1.data :: p2.data :: p3.data :: p4.data :: rest.map String.data) := by
    rw [← hdata, List.intercalate_splitOn]
  have hpipe : '|' ∈ line.data := by
    rw [hline, intercalate_cons_cons]
    simp
  have hblank : ¬ pyStrip line = "" := by
    intro h
    exact strip_ne_nil_of_mem hpipe rfl (congrArg String.data h)
  have hlen : 4 ≤ (pySplit '|' line).length := by
    rw [hsplit]
    simp [List.length_cons]
  rw [parseLine_benign favorites line hb, if_pos ⟨hblank, hlen⟩]
  unfold lineRecord
  rw [hsplit]
  simp [List.getD]

/-! ### The favorites store round trip (C5, C9) -/

/-- A session name the store can faithfully hold: non-empty, free of the
line delimiter, and equal to its own whitespace-trim. -/
def NiceName (x : String) : Prop := x ≠ "" ∧ '\n' ∉ x.data ∧ pyStrip x = x

instance (x : String) : Decidable (NiceName x) :=
  inferInstanceAs (Decidable (x ≠ "" ∧ '\n' ∉ x.data ∧ pyStrip x = x))

theorem string_eq_iff_data {s t : String} : s = t ↔ s.data = t.data :=
  ⟨congrArg _, fun h => by cases s; cases t; exact congrArg String.mk h⟩

theorem mem_pySorted {s : Finset String} {x : String} :
    x ∈ pySorted s ↔ x ∈ s := by
  obtain ⟨m, hm⟩ := s
  revert hm
  induction m using Quot.inductionOn with
  | _ l =>
    intro hm
    show x ∈ List.insertionSort pyLe l ↔ _
    rw [(List.perm_insertionSort pyLe l).mem_iff]
    exact Iff.rfl

theorem pySorted_toFinset (s : Finset String) : (pySorted s).toFinset = s := by
  ext a
  rw [List.mem_toFinset, mem_pySorted]

theorem head_not_space_of_dropWhile_self {p : Char → Bool} {l : List Char}
    (h : l.dropWhile p = l) : ∀ c ∈ l.head?, p c = false := by
  intro c hc
  cases l with
  | nil => simp at hc
  | cons a t =>
    simp at hc
    subst hc
    by_contra hp
    rw [Bool.not_eq_false] at hp
    rw [List.dropWhile_cons, if_pos hp] at h
    have hlen := congrArg List.length h
    have hle := (List.dropWhile_sublist (l := t) p).length_le
    simp at hlen
    omega

theorem strip_fixed_parts {l : List Char} (h : stripChars l = l) :
    l.dropWhile isPySpace = l ∧ l.reverse.dropWhile isPySpace = l.reverse := by
  set d := l.dropWhile isPySpace with hd
  set e := d.reverse.dropWhile isPySpace with he
  have hse : stripChars l = e.reverse := rfl
  have h1 : e.length ≤ d.length := by
    have := (List.dropWhile_sublist (l := d.reverse) isPySpace).length_le
    simpa [← he] using this
  have h2 : d.length ≤ l.length := (List.dropWhile_sublist (l := l) isPySpace).length_le
  have h3 : l.length = e.length := by
    have := congrArg List.length h
    rw [hse] at this
    simpa using this.symm
  have hdl : d.length = l.length := by omega
  have hdeq : d = l := (List.dropWhile_sublist (l := l) isPySpace).eq_of_length hdl
  refine ⟨hdeq, ?_⟩
  have hel : e.length = d.reverse.length := by simp; omega
  have heeq : e = d.reverse :=
    (List.dropWhile_sublist (l := d.reverse) isPySpace).eq_of_length hel
  rw [← hdeq]
  rw [← he]
  exact heeq

theorem nice_data_facts {z : String} (h : NiceName z) :
    z.data ≠ [] ∧ (∀ c ∈ z.data.head?, isPySpace c = false) ∧
    (∀ c ∈ z.data.getLast?, isPySpace c = false) ∧ '\n' ∉ z.data := by
  obtain ⟨h0, hn, hstrip⟩ := h
  have hdata : stripChars z.data = z.data := congrArg String.data hstrip
  have hparts := strip_fixed_parts hdata
  refine ⟨fun hnil => h0 (string_eq_iff_data.mpr (by simpa using hnil)), 
    head_not_space_of_dropWhile_self hparts.1, ?_, hn⟩
  intro c hc
  apply head_not_space_of_dropWhile_self hparts.2
  rwa [List.head?_reverse]

theorem intercalate_single {α : Type} (sep x : List α) :
    List.intercalate sep [x] = x := by
  simp [List.intercalate]

theorem intercalate_ne_nil (x : List Char) (t : List (List Char))
    (hx : x ≠ []) : List.intercalate ['\n'] (x :: t) ≠ [] := by
  cases t with
  | nil => rw [intercalate_single]; exact hx
  | cons b t' =>
    rw [intercalate_cons_cons]
    simp [hx]

theorem strip_append_newline {L : List Char} (hne : L ≠ [])
    (hh : ∀ c ∈ L.head?, isPySpace c = false)
    (hl : ∀ c ∈ L.getLast?, isPySpace c = false) :
    stripChars (L ++ ['\n']) = L := by
  cases L with
  | nil => exact absurd rfl hne
  | cons a t =>
    have ha : isPySpace a = false := hh a (by simp)
    unfold stripChars
    rw [List.cons_append, List.dropWhile_cons, if_neg (by simp [ha])]
    have hrev : (a :: (t ++ ['\n'])).reverse = '\n' :: (a :: t).reverse := by
      simp
    rw [hrev, List.dropWhile_cons, if_pos (show isPySpace '\n' = true by rfl)]
    have hstop : (a :: t).reverse.dropWhile isPySpace = (a :: t).reverse := by
      cases hrv : (a :: t).reverse with
      | nil => rfl
      | cons b r =>
        have hb : isPySpace b = false := by
          apply hl
          rw [← List.head?_reverse, hrv]
          rfl
        rw [List.dropWhile_cons, if_neg (by simp [hb])]
    rw [hstop, List.reverse_reverse]

theorem intercalate_head_not_space (x : List Char) (t : List (List Char))
    (hx : x ≠ []) (hxh : ∀ c ∈ x.head?, isPySpace c = false) :
    ∀ c ∈ (List.intercalate ['\n'] (x :: t)).head?, isPySpace c = false := by
  intro c hc
  cases t with
  | nil =>
    rw [intercalate_single] at hc
    exact hxh c hc
  | cons b t' =>
    rw [intercalate_cons_cons, List.append_assoc, List.head?_append] at hc
    cases hx2 : x.head? with
    | none => exact absurd (List.head?_eq_none_iff.mp hx2) hx
    | some a =>
      rw [hx2] at hc
      have hca : a = c := by simpa using hc
      exact hca ▸ hxh a hx2

theorem intercalate_last_not_space :
    ∀ names : List (List Char), names ≠ [] →
      (∀ x ∈ names, x ≠ [] ∧ ∀ c ∈ x.getLast?, isPySpace c = false) →
      ∀ c ∈ (List.intercalate ['\n'] names).getLast?, isPySpace c = false := by
  intro names
  induction names with
  | nil => intro h; exact absurd rfl h
  | cons x t ih =>
    intro _ hall c hc
    cases t with
    | nil =>
      rw [intercalate_single] at hc
      exact (hall x (by simp)).2 c hc
    | cons b t' =>
      rw [intercalate_cons_cons, List.append_assoc, List.getLast?_append,
        List.getLast?_append] at hc
      have hne2 : List.intercalate ['\n'] (b :: t') ≠ [] :=
        intercalate_ne_nil b t' (hall b (by simp)).1
      cases hg : (List.intercalate ['\n'] (b :: t')).getLast? with
      | none => exact absurd (List.getLast?_eq_none_iff.mp hg) hne2
      | some d =>
        rw [hg] at hc
        have hdc : d = c := by simpa using hc
        refine hdc ▸ ih (by simp) (fun y hy => hall y (by simp [hy])) d ?_
        rw [hg]
        rfl

theorem map_mk_map_data (l : List String) :
    (l.map String.data).map String.mk = l := by
  rw [List.map_map]
  exact (List.map_congr_left fun a _ => rfl).trans (List.map_id l)

/-- Round trip of the favorites store: saving a set of storable names and
loading the file back recovers exactly the set. -/
theorem load_save_roundtrip (s : Finset String) (hs : ∀ x ∈ s, NiceName x) :
    load_favorites (save_favorites s) = s := by
  cases hL : pySorted s with
  | nil =>
    have hs0 : s = ∅ := by
      have h := pySorted_toFinset s
      rw [hL] at h
      simpa using h.symm
    subst hs0
    decide
  | cons x t =>
    have hmem : ∀ y ∈ x :: t, NiceName y := by
      intro y hy
      refine hs y (mem_pySorted.mp ?_)
      rw [hL]
      exact hy
    obtain ⟨hxd, hxh, hxl, hxn⟩ := nice_data_facts (hmem x (by simp))
    have hcontent : (pyJoin "\n" (x :: t)).data =
        List.intercalate ['\n'] (x.data :: t.map String.data) := rfl
    have hLne : List.intercalate ['\n'] (x.data :: t.map String.data) ≠ [] :=
      intercalate_ne_nil x.data (t.map String.data) hxd
    have hcne : pyJoin "\n" (x :: t) ≠ "" := by
      intro hcEq
      exact hLne (by rw [← hcontent, hcEq])
    have hsave : save_favorites s = pyJoin "\n" (x :: t) ++ "\n" := by
      show (if pyJoin "\n" (pySorted s) ≠ "" then pyJoin "\n" (pySorted s) ++ "\n"
            else "") = _
      rw [hL, if_pos hcne]
    have hheadcond : ∀ c ∈ (List.intercalate ['\n']
        (x.data :: t.map String.data)).head?, isPySpace c = false :=
      intercalate_head_not_space x.data (t.map String.data) hxd hxh
    have hlastcond : ∀ c ∈ (List.intercalate ['\n']
        (x.data :: t.map String.data)).getLast?, isPySpace c = false := by
      apply intercalate_last_not_space _ (by simp)
      intro y hy
      rcases List.mem_cons.mp hy with rfl | hy2
      · exact ⟨hxd, hxl⟩
      · obtain ⟨z, hz, rfl⟩ := List.mem_map.mp hy2
        have hf := nice_data_facts (hmem z (by simp [hz]))
        exact ⟨hf.1, hf.2.2.1⟩
    have hstrip : pyStrip (save_favorites s) = pyJoin "\n" (x :: t) := by
      rw [hsave, string_eq_iff_data]
      show stripChars ((pyJoin "\n" (x :: t) ++ "\n").data) = _
      rw [String.data_append, hcontent,
        show ("\n" : String).data = ['\n'] from rfl,
        strip_append_newline hLne hheadcond hlastcond]
    show (if pyStrip (save_favorites s) = "" then (∅ : Finset String)
          else (((pySplit '\n' (pyStrip (save_favorites s))).map pyStrip).filter
            (fun line => line ≠ "")).toFinset) = s
    rw [hstrip, if_neg hcne]
    have hsplit2 : pySplit '\n' (pyJoin "\n" (x :: t)) = x :: t := by
      unfold pySplit
      rw [show (pyJoin "\n" (x :: t)).data =
            List.intercalate ['\n'] ((x :: t).map String.data) from rfl]
      rw [List.splitOn_intercalate ((x :: t).map String.data) '\n' ?hnomem ?hnenil]
      case hnomem =>
        intro y hy
        obtain ⟨z, hz, rfl⟩ := List.mem_map.mp hy
        exact (hmem z hz).2.1
      case hnenil => simp
      exact map_mk_map_data (x :: t)
    rw [hsplit2,
      (List.map_congr_left fun y hy => (hmem y hy).2.2).trans (List.map_id (x :: t)),
      List.filter_eq_self.mpr (fun a ha => by simp [(hmem a ha).1]),
      ← hL, pySorted_toFinset]

/-- Claim C5 (counterexample): for a name containing the line delimiter the
double toggle is not an involution.  Starting from the canonical empty file
(the serialization of the empty set), toggling "a\nb" twice leaves the file
different from the original and reports the name as a favorite although it
originally was not. -/
theorem c5_counterexample :
    ¬ ((toggle_favorite "a\nb" (toggle_favorite "a\nb" (save_favorites ∅)).2).2 =
          save_favorites ∅ ∧
        (toggle_favorite "a\nb" (toggle_favorite "a\nb" (save_favorites ∅)).2).1 =
          decide ("a\nb" ∈ (∅ : Finset String))) := by decide

/-- Claim C5 (amended): for every session name that is a valid store entry
(non-empty, newline-free, equal to its own trim) and every initial file
that is the canonical serialization of a set of such names, toggling twice
restores the original membership state and leaves the persisted file
byte-identical. -/
theorem c5_toggle_involution (n : String) (s : Finset String)
    (hn : NiceName n) (hs : ∀ x ∈ s, NiceName x) :
    (toggle_favorite n (toggle_favorite n (save_favorites s)).2).2 =
        save_favorites s ∧
    (toggle_favorite n (toggle_favorite n (save_favorites s)).2).1 =
        decide (n ∈ s) := by
  have hload1 : load_favorites (save_favorites s) = s := load_save_roundtrip s hs
  by_cases hmemb : n ∈ s
  · have hfst : toggle_favorite n (save_favorites s) =
        (false, save_favorites (s.erase n)) := by
      simp only [toggle_favorite, hload1, if_pos hmemb]
    have hload2 : load_favorites (save_favorites (s.erase n)) = s.erase n :=
      load_save_roundtrip _ (fun x hx => hs x (Finset.mem_of_mem_erase hx))
    have hwhole : toggle_favorite n (toggle_favorite n (save_favorites s)).2 =
        (true, save_favorites s) := by
      rw [hfst]
      show toggle_favorite n (save_favorites (s.erase n)) = _
      simp only [toggle_favorite, hload2, if_neg (Finset.not_mem_erase n s)]
      rw [Finset.insert_erase hmemb]
    rw [hwhole]
    exact ⟨rfl, by simp [hmemb]⟩
  · have hfst : toggle_favorite n (save_favorites s) =
        (true, save_favorites (insert n s)) := by
      simp only [toggle_favorite, hload1, if_neg hmemb]
    have hload2 : load_favorites (save_favorites (insert n s)) = insert n s := by
      refine load_save_roundtrip _ (fun x hx => ?_)
      rcases Finset.mem_insert.mp hx with rfl | hx2
      · exact hn
      · exact hs x hx2
    have hwhole : toggle_favorite n (toggle_favorite n (save_favorites s)).2 =
        (false, save_favorites s) := by
      rw [hfst]
      show toggle_favorite n (save_favorites (insert n s)) = _
      simp only [toggle_favorite, hload2, if_pos (Finset.mem_insert_self n s)]
      rw [Finset.erase_insert hmemb]
    rw [hwhole]
    exact ⟨rfl, by simp [hmemb]⟩

theorem c5_toggle_involution_witness :
    NiceName "work" ∧ (∀ x ∈ ({"alpha"} : Finset String), NiceName x) ∧
    ((toggle_favorite "work" (toggle_favorite "work"
          (save_favorites {"alpha"})).2).2 = save_favorites {"alpha"} ∧
      (toggle_favorite "work" (toggle_favorite "work"
          (save_favorites {"alpha"})).2).1 =
        decide ("work" ∈ ({"alpha"} : Finset String))) :=
  ⟨by decide, by decide, c5_toggle_involution "work" {"alpha"} (by decide) (by decide)⟩

/-- Claim C9: save followed by load is the identity on sets whose elements
are non-empty, newline-free and equal to their own whitespace-trim. -/
theorem c9_roundtrip (s : Finset String) (hs : ∀ x ∈ s, NiceName x) :
    load_favorites (save_favorites s) = s :=
  load_save_roundtrip s hs

theorem c9_roundtrip_witness :
    (∀ x ∈ ({"beta", "gamma"} : Finset String), NiceName x) ∧
    load_favorites (save_favorites {"beta", "gamma"}) = {"beta", "gamma"} :=
  ⟨by decide, c9_roundtrip {"beta", "gamma"} (by decide)⟩

theorem c10_extra_fields_discarded_witness :
    pySplit '|' "a|1700000000|2|1|vim|x" =
      ["a", "1700000000", "2", "1", "vim", "x"] ∧
    (["x"] : List String) ≠ [] ∧
    lineBenign "a|1700000000|2|1|vim|x" = true ∧
    parseLine ∅ "a|1700000000|2|1|vim|x" =
      .ok (some { name := "a", created := createdOk "1700000000",
                  windows := if pyIsDigit "2" then digitsToNat "2".data else 0,
                  attached := "1" == "1", window_preview := "vim",
                  is_favorite := decide ("a" ∈ (∅ : Finset String)) }) :=
  ⟨by decide, by decide, by decide,
    c10_extra_fields_discarded ∅ "a|1700000000|2|1|vim|x" "a" "1700000000" "2"
      "1" "vim" ["x"] (by decide) (by decide) (by decide)⟩
